import Mathlib

/-!
Verification of the snippet cache-aside layer of django-addendum
(src/addendum/models.py) as a shallow embedding.

The embedding models:
- the durable store (Django ORM tables for Snippet and SnippetTranslation)
  as lists of records;
- the Django cache backend as an association list from cache-key strings to
  cached values (either a snippet dictionary or the integer miss marker -1,
  modelled as CacheVal.neg);
- Python dictionaries of language code to text as association lists with
  last-write-wins insertion, observed only through dict_get
  (Python d.get semantics);
- backend availability as two booleans: an unavailable backend makes its
  operations raise, and the source code catches no such exception, so the
  error propagates out of get_cached_snippet.

Store reads are counted per miss-fill: the Snippet.objects.get call issued on
a true cache miss counts as one durable-store read (the translation listing
performed by to_dict while building the cached dictionary is part of the same
fill).
-/

namespace Addendum

/-- Python dictionary from language code to text, as an association list.
Only dict_get observes it, so any representation with last-write-wins
insertion is faithful. -/
abbrev Dict := List (String × String)

/-- Python d.get(k): the value at k, or none when k is not a key of d. -/
def dict_get (d : Dict) (k : String) : Option String :=
  match d.find? (fun p => p.1 == k) with
  | some p => some p.2
  | none => none

/-- Python d.get(k, dflt): the value at k, or dflt when k is absent. -/
def dict_getD (d : Dict) (k : String) (dflt : Option String) : Option String :=
  match dict_get d k with
  | some v => some v
  | none => dflt

/-- Python d[k] = v: insertion that overrides any previous binding of k. -/
def dict_insert (d : Dict) (k : String) (v : String) : Dict :=
  (k, v) :: d.filter (fun p => p.1 != k)

/-- Row of the Snippet table: key is the primary key, text the default text. -/
structure Snippet where
  key : String
  text : String
deriving DecidableEq

/-- Row of the SnippetTranslation table: snippet_id is the foreign key to
Snippet, and the pair (snippet_id, language) is unique_together. -/
structure SnippetTranslation where
  snippet_id : String
  language : String
  text : String
deriving DecidableEq

/-- The durable store: both ORM tables. -/
structure Store where
  snippets : List Snippet
  translations : List SnippetTranslation
deriving DecidableEq

/-- Snippet.objects.get(key=key): the snippet with the given primary key,
or none when it does not exist (Snippet.DoesNotExist). -/
def store_find (store : Store) (key : String) : Option Snippet :=
  store.snippets.find? (fun s => s.key == key)

/-- Snippet.to_dict: a dictionary mapping each translation language of the
snippet to its text, built by dict comprehension over
SnippetTranslation.objects.filter(snippet_id=self.key), then updated with
the empty-string key mapped to the snippet text itself
(data.update with the pair of the empty string and self.text), so the
default text overrides any translation stored under the empty string. -/
def Snippet.to_dict (store : Store) (s : Snippet) : Dict :=
  let data := (store.translations.filter (fun t => t.snippet_id == s.key)).foldl
    (fun acc t => dict_insert acc t.language t.text) []
  dict_insert data "" s.text

/-- Value held by the cache backend under a snippet cache key: the dictionary
written by set_cached_snippet, or the miss marker -1. -/
inductive CacheVal where
  | neg : CacheVal
  | view : Dict → CacheVal
deriving DecidableEq

/-- The cache backend contents, as an association list keyed by cache key. -/
abbrev Cache := List (String × CacheVal)

/-- cache.get(k): the stored value, or none on a backend miss. -/
def cache_get (c : Cache) (k : String) : Option CacheVal :=
  match c.find? (fun p => p.1 == k) with
  | some p => some p.2
  | none => none

/-- cache.set(k, v): store v under k, overriding any previous value. -/
def cache_set (c : Cache) (k : String) (v : CacheVal) : Cache :=
  (k, v) :: c.filter (fun p => p.1 != k)

/-- cache.delete(k): remove any value stored under k. -/
def cache_delete (c : Cache) (k : String) : Cache :=
  c.filter (fun p => p.1 != k)

/-- Default cache-key namespace returned by the module-level configuration
function of models.py (which settings.ADDENDUM_CACHE_PREFIX may replace);
the source names this function get_cache_pre fix without the blank. -/
def cache_pfx_default : String := "snippet:"

/-- get_cache_key(key): the Python format string joining the configured
namespace and the snippet key with a colon. -/
def get_cache_key (pfx : String) (key : String) : String :=
  pfx ++ ":" ++ key

/-- The world the snippet layer acts on: both stores plus availability flags
for the two backends. An unavailable backend raises on every operation; the
flags are consulted on the read path, where the claims exercise failure. -/
structure Env where
  store : Store
  cache : Cache
  storeUp : Bool
  cacheUp : Bool
deriving DecidableEq

/-- Replace only the cache contents of an environment. -/
def Env.withCache (e : Env) (c : Cache) : Env :=
  Env.mk e.store c e.storeUp e.cacheUp

/-- Result a caller observes from get_cached_snippet: the returned text (or
Python None), or a propagated exception of the store or of the cache. -/
inductive Outcome where
  | result : Option String → Outcome
  | dbError : Outcome
  | cacheError : Outcome
deriving DecidableEq

/-- Full effect of one get_cached_snippet call: the outcome, the cache
contents afterwards, and how many durable-store miss-fill reads ran. -/
structure ResolveOut where
  outcome : Outcome
  cache : Cache
  dbReads : Nat
deriving DecidableEq

/-- Final line of get_cached_snippet:
snippet.get(language, snippet.get with the empty string). -/
def resolve_from (d : Dict) (language : String) : Option String :=
  dict_getD d language (dict_get d "")

/-- get_cached_snippet(key, language) of models.py.

Order of the source: cache.get first (a raising cache backend therefore
propagates before anything else); the stored -1 marker short-circuits to
None; a stored dictionary is read with
snippet.get(language, snippet.get with the empty string); on a genuine
cache miss, Snippet.objects.get runs, and on Snippet.DoesNotExist the
marker -1 is cached and the local dictionary mapping the empty string to
None makes the shared return line evaluate to None for every language
(its get at the requested language and its get at the empty string both
produce None), while on success to_dict is cached under snippet.key and
the shared return line reads the fresh dictionary. Any store exception
other than DoesNotExist propagates with the cache untouched. -/
def get_cached_snippet (pfx : String) (env : Env) (key : String)
    (language : String) : ResolveOut :=
  if env.cacheUp then
    match cache_get env.cache (get_cache_key pfx key) with
    | some CacheVal.neg => ⟨Outcome.result none, env.cache, 0⟩
    | some (CacheVal.view d) =>
        ⟨Outcome.result (resolve_from d language), env.cache, 0⟩
    | none =>
        if env.storeUp then
          match store_find env.store key with
          | none =>
              ⟨Outcome.result none,
               cache_set env.cache (get_cache_key pfx key) CacheVal.neg, 1⟩
          | some s =>
              let d := Snippet.to_dict env.store s
              ⟨Outcome.result (resolve_from d language),
               cache_set env.cache (get_cache_key pfx s.key) (CacheVal.view d),
               1⟩
        else
          ⟨Outcome.dbError, env.cache, 1⟩
  else
    ⟨Outcome.cacheError, env.cache, 0⟩

/-- Store effect of Snippet.save: primary-key upsert of the row. -/
def store_save_snippet (store : Store) (s : Snippet) : Store :=
  Store.mk (store.snippets.filter (fun u => u.key != s.key) ++ [s])
    store.translations

/-- Store effect of SnippetTranslation.save: upsert of the row keyed by the
unique_together pair (snippet_id, language). -/
def store_save_translation (store : Store) (t : SnippetTranslation) : Store :=
  Store.mk store.snippets
    (store.translations.filter
      (fun u => !(u.snippet_id == t.snippet_id && u.language == t.language))
      ++ [t])

/-- Snippet.save: the superclass save commits the row, then
set_cached_snippet(self.key, self.to_dict()) overwrites the cache entry with
the dictionary rebuilt from the post-commit store. Modelled for available
backends (the claims exercise backend failure on the read path only). -/
def snippet_save (pfx : String) (env : Env) (s : Snippet) : Env :=
  let store := store_save_snippet env.store s
  Env.mk store
    (cache_set env.cache (get_cache_key pfx s.key)
      (CacheVal.view (Snippet.to_dict store s)))
    env.storeUp env.cacheUp

/-- SnippetTranslation.save: the superclass save commits the row, then
set_cached_snippet(self.snippet_id, self.snippet.to_dict()) overwrites the
cache entry with the dictionary rebuilt from the post-commit store. The
foreign key guarantees the owning snippet exists; were it absent, the
self.snippet access would raise, leaving the cache untouched. -/
def translation_save (pfx : String) (env : Env) (t : SnippetTranslation) :
    Env :=
  let store := store_save_translation env.store t
  match store_find store t.snippet_id with
  | some s =>
      Env.mk store
        (cache_set env.cache (get_cache_key pfx t.snippet_id)
          (CacheVal.view (Snippet.to_dict store s)))
        env.storeUp env.cacheUp
  | none => Env.mk store env.cache env.storeUp env.cacheUp

/-- Store effect of deleting a Snippet: the row and, by foreign-key cascade,
all of its translations leave the store. -/
def store_delete_snippet (store : Store) (key : String) : Store :=
  Store.mk (store.snippets.filter (fun u => u.key != key))
    (store.translations.filter (fun u => u.snippet_id != key))

/-- Store effect of deleting one SnippetTranslation row, identified by its
unique_together pair (snippet_id, language). -/
def store_delete_translation (store : Store) (t : SnippetTranslation) :
    Store :=
  Store.mk store.snippets
    (store.translations.filter
      (fun u => !(u.snippet_id == t.snippet_id && u.language == t.language)))

/-- Net effect of deleting a Snippet: the rows leave the store, and the
post_delete receiver delete_snippet runs cache.delete on the cache key.
During the cascade each translation fires its own post_delete receiver
first, writing intermediate dictionaries, but the final snippet receiver
deletes the entry, so the net cache effect is the deletion. -/
def snippet_delete (pfx : String) (env : Env) (key : String) : Env :=
  Env.mk (store_delete_snippet env.store key)
    (cache_delete env.cache (get_cache_key pfx key))
    env.storeUp env.cacheUp

/-- Deleting a single SnippetTranslation: the row leaves the store, then the
post_delete receiver delete_snippet_translation runs
set_cached_snippet(instance.snippet_id, instance.snippet.to_dict()),
rebuilding the cache entry from the post-delete store. The owning snippet
still exists in this standalone deletion; were it absent, the
instance.snippet access would raise, leaving the cache untouched. -/
def translation_delete (pfx : String) (env : Env) (t : SnippetTranslation) :
    Env :=
  let store := store_delete_translation env.store t
  match store_find store t.snippet_id with
  | some s =>
      Env.mk store
        (cache_set env.cache (get_cache_key pfx t.snippet_id)
          (CacheVal.view (Snippet.to_dict store s)))
        env.storeUp env.cacheUp
  | none => Env.mk store env.cache env.storeUp env.cacheUp

/-- Coherence of the cache with the store for keys whose snippet exists:
such a key is never negatively marked, and any dictionary cached for it
contains the empty-string entry. Every cache entry this layer writes for an
existing snippet is a to_dict result, which satisfies both. -/
def cache_coherent (pfx : String) (env : Env) : Prop :=
  ∀ K s, store_find env.store K = some s →
    cache_get env.cache (get_cache_key pfx K) ≠ some CacheVal.neg ∧
    ∀ d, cache_get env.cache (get_cache_key pfx K) = some (CacheVal.view d) →
      (dict_get d "").isSome = true

/-! Association-list lemmas shared by the cache, the dictionaries and the
store tables. -/

theorem find?_filter_key {α : Type} (key : α → String) (l : List α)
    (k k' : String) (h : k' ≠ k) :
    (l.filter (fun x => key x != k)).find? (fun x => key x == k') =
      l.find? (fun x => key x == k') := by
  induction l with
  | nil => rfl
  | cons x l ih =>
    by_cases hx : key x = k
    · have h1 : (key x != k) = false := by simp [hx]
      have h2 : (key x == k') = false :=
        beq_false_of_ne (fun he => h (hx ▸ he).symm)
      simp only [List.filter_cons, h1, Bool.false_eq_true, if_false, ih,
        List.find?_cons, h2]
    · have h1 : (key x != k) = true := by simp [hx]
      simp only [List.filter_cons, h1, if_true, List.find?_cons]
      cases hq : key x == k' with
      | true => rfl
      | false => exact ih

theorem find?_filter_key_self {α : Type} (key : α → String) (l : List α)
    (k : String) :
    (l.filter (fun x => key x != k)).find? (fun x => key x == k) = none := by
  induction l with
  | nil => rfl
  | cons x l ih =>
    by_cases hx : key x = k
    · simp [List.filter_cons, hx, ih]
    · simp [List.filter_cons, List.find?_cons, hx, ih]

theorem cache_get_set_self (c : Cache) (k : String) (v : CacheVal) :
    cache_get (cache_set c k v) k = some v := by
  simp [cache_get, cache_set, List.find?_cons]

theorem cache_get_set_other (c : Cache) (k k' : String) (v : CacheVal)
    (h : k' ≠ k) :
    cache_get (cache_set c k v) k' = cache_get c k' := by
  have hk : (k == k') = false := by
    simp
    exact fun he => h he.symm
  simp only [cache_get, cache_set, List.find?_cons, hk]
  rw [find?_filter_key (fun p => p.1) c k k' h]

theorem cache_get_delete_self (c : Cache) (k : String) :
    cache_get (cache_delete c k) k = none := by
  simp only [cache_get, cache_delete]
  rw [find?_filter_key_self (fun p => p.1) c k]

theorem cache_get_delete_other (c : Cache) (k k' : String) (h : k' ≠ k) :
    cache_get (cache_delete c k) k' = cache_get c k' := by
  simp only [cache_get, cache_delete]
  rw [find?_filter_key (fun p => p.1) c k k' h]

theorem dict_get_insert_self (d : Dict) (k v : String) :
    dict_get (dict_insert d k v) k = some v := by
  simp [dict_get, dict_insert, List.find?_cons]

theorem dict_get_insert_other (d : Dict) (k v k' : String) (h : k' ≠ k) :
    dict_get (dict_insert d k v) k' = dict_get d k' := by
  have hk : (k == k') = false := by
    simp
    exact fun he => h he.symm
  simp only [dict_get, dict_insert, List.find?_cons, hk]
  rw [find?_filter_key (fun p => p.1) d k k' h]

/-! Lemmas about building the snippet dictionary. -/

theorem dict_get_foldl_absent (l : List SnippetTranslation) (d : Dict)
    (L : String) (h : ∀ t ∈ l, t.language ≠ L) :
    dict_get (l.foldl (fun acc t => dict_insert acc t.language t.text) d) L =
      dict_get d L := by
  induction l generalizing d with
  | nil => rfl
  | cons t l ih =>
    rw [List.foldl_cons,
      ih (dict_insert d t.language t.text)
        (fun u hu => h u (List.mem_cons_of_mem t hu)),
      dict_get_insert_other d t.language t.text L
        (fun he => h t (List.mem_cons_self t l) he.symm)]

theorem dict_get_foldl_all_eq (l : List SnippetTranslation) (d : Dict)
    (L T : String)
    (hall : ∀ t ∈ l, t.language = L → t.text = T)
    (hex : ∃ t ∈ l, t.language = L) :
    dict_get (l.foldl (fun acc t => dict_insert acc t.language t.text) d) L =
      some T := by
  induction l generalizing d with
  | nil => simp at hex
  | cons t l ih =>
    rw [List.foldl_cons]
    by_cases hmem : ∃ u ∈ l, u.language = L
    · exact ih _ (fun u hu hL => hall u (List.mem_cons_of_mem t hu) hL) hmem
    · have ht : t.language = L := by
        rcases hex with ⟨u, hu, hL⟩
        rcases List.mem_cons.mp hu with h1 | h2
        · exact h1 ▸ hL
        · exact absurd ⟨u, h2, hL⟩ hmem
      have htext : t.text = T := hall t (List.mem_cons_self t l) ht
      rw [dict_get_foldl_absent l _ L (fun u hu hL => hmem ⟨u, hu, hL⟩),
        ← ht, dict_get_insert_self, htext]

theorem to_dict_default_entry (store : Store) (s : Snippet) :
    dict_get (Snippet.to_dict store s) "" = some s.text := by
  simp only [Snippet.to_dict]
  exact dict_get_insert_self _ "" s.text

theorem resolve_from_eq_ite (d : Dict) (L : String) :
    resolve_from d L =
      if (dict_get d L).isSome then dict_get d L else dict_get d "" := by
  unfold resolve_from dict_getD
  cases dict_get d L <;> simp

theorem resolve_from_isSome (d : Dict) (L : String)
    (h : (dict_get d "").isSome = true) : ∃ t, resolve_from d L = some t := by
  cases hL : dict_get d L with
  | some v => exact ⟨v, by simp [resolve_from, dict_getD, hL]⟩
  | none =>
    cases hD : dict_get d "" with
    | some v => exact ⟨v, by simp [resolve_from, dict_getD, hL, hD]⟩
    | none => rw [hD] at h; simp at h

theorem store_find_key (store : Store) (K : String) (s : Snippet)
    (h : store_find store K = some s) : s.key = K := by
  have h' : store.snippets.find? (fun u => u.key == K) = some s := h
  have hp := List.find?_some h'
  exact eq_of_beq hp

/-! Branch equations of get_cached_snippet. -/

theorem resolve_cache_down (pfx K L : String) (env : Env)
    (h : env.cacheUp = false) :
    get_cached_snippet pfx env K L = ⟨Outcome.cacheError, env.cache, 0⟩ := by
  simp [get_cached_snippet, h]

theorem resolve_neg_hit (pfx K L : String) (env : Env)
    (hc : env.cacheUp = true)
    (h : cache_get env.cache (get_cache_key pfx K) = some CacheVal.neg) :
    get_cached_snippet pfx env K L = ⟨Outcome.result none, env.cache, 0⟩ := by
  simp [get_cached_snippet, hc, h]

theorem resolve_view_hit (pfx K L : String) (env : Env)
    (hc : env.cacheUp = true) (d : Dict)
    (h : cache_get env.cache (get_cache_key pfx K) = some (CacheVal.view d)) :
    get_cached_snippet pfx env K L =
      ⟨Outcome.result (resolve_from d L), env.cache, 0⟩ := by
  simp [get_cached_snippet, hc, h]

theorem resolve_miss_store_down (pfx K L : String) (env : Env)
    (hc : env.cacheUp = true)
    (hm : cache_get env.cache (get_cache_key pfx K) = none)
    (hs : env.storeUp = false) :
    get_cached_snippet pfx env K L = ⟨Outcome.dbError, env.cache, 1⟩ := by
  simp [get_cached_snippet, hc, hm, hs]

theorem resolve_miss_absent (pfx K L : String) (env : Env)
    (hc : env.cacheUp = true)
    (hm : cache_get env.cache (get_cache_key pfx K) = none)
    (hs : env.storeUp = true)
    (ha : store_find env.store K = none) :
    get_cached_snippet pfx env K L =
      ⟨Outcome.result none,
       cache_set env.cache (get_cache_key pfx K) CacheVal.neg, 1⟩ := by
  simp [get_cached_snippet, hc, hm, hs, ha]

theorem resolve_miss_found (pfx K L : String) (env : Env)
    (hc : env.cacheUp = true)
    (hm : cache_get env.cache (get_cache_key pfx K) = none)
    (hs : env.storeUp = true)
    (s : Snippet) (hf : store_find env.store K = some s) :
    get_cached_snippet pfx env K L =
      ⟨Outcome.result (resolve_from (Snippet.to_dict env.store s) L),
       cache_set env.cache (get_cache_key pfx s.key)
         (CacheVal.view (Snippet.to_dict env.store s)), 1⟩ := by
  simp [get_cached_snippet, hc, hm, hs, hf]

/-! Claim theorems. -/

/-- C1: for every key K whose snippet is present, either already in the cache
as a dictionary view or resolvable from the store on a cache miss, and every
language L, get_cached_snippet returns the view entry for L when that
language is a key of the view and the view entry for the empty string (the
default text) otherwise. -/
theorem resolve_language_fallback (pfx K L : String) (env : Env)
    (hc : env.cacheUp = true) :
    (∀ d, cache_get env.cache (get_cache_key pfx K) = some (CacheVal.view d) →
      (get_cached_snippet pfx env K L).outcome =
        Outcome.result
          (if (dict_get d L).isSome then dict_get d L else dict_get d "")) ∧
    (cache_get env.cache (get_cache_key pfx K) = none → env.storeUp = true →
      ∀ s, store_find env.store K = some s →
        (get_cached_snippet pfx env K L).outcome =
          Outcome.result
            (if (dict_get (Snippet.to_dict env.store s) L).isSome
             then dict_get (Snippet.to_dict env.store s) L
             else dict_get (Snippet.to_dict env.store s) "")) := by
  constructor
  · intro d hd
    have h := resolve_view_hit pfx K L env hc d hd
    have hout : (get_cached_snippet pfx env K L).outcome =
        Outcome.result (resolve_from d L) := congrArg ResolveOut.outcome h
    rw [hout, resolve_from_eq_ite]
  · intro hm hs s hf
    have h := resolve_miss_found pfx K L env hc hm hs s hf
    have hout : (get_cached_snippet pfx env K L).outcome =
        Outcome.result (resolve_from (Snippet.to_dict env.store s) L) :=
      congrArg ResolveOut.outcome h
    rw [hout, resolve_from_eq_ite]

/-- Concrete environment: one snippet with key greeting, default text Hello
and one Spanish translation, with an empty cache and both backends up. -/
def envW : Env :=
  Env.mk
    (Store.mk [Snippet.mk "greeting" "Hello"]
      [SnippetTranslation.mk "greeting" "es" "Hola"])
    [] true true

/-- Witness for C1 at the example of the claim: the Spanish lookup returns
Hola and the French lookup falls back to the default Hello. -/
theorem resolve_language_fallback_witness :
    (get_cached_snippet "snippet:" envW "greeting" "es").outcome =
      Outcome.result (some "Hola") ∧
    (get_cached_snippet "snippet:" envW "greeting" "fr").outcome =
      Outcome.result (some "Hello") := by
  constructor
  · have h := (resolve_language_fallback "snippet:" "greeting" "es" envW
      (by decide)).2 (by decide) (by decide)
      (Snippet.mk "greeting" "Hello") (by decide)
    rw [h]
    decide
  · have h := (resolve_language_fallback "snippet:" "greeting" "fr" envW
      (by decide)).2 (by decide) (by decide)
      (Snippet.mk "greeting" "Hello") (by decide)
    rw [h]
    decide

/-- C2: for a key absent from the durable store, the first call returns
absent after one store read and leaves the negative marker in the cache;
any subsequent call, for any language, returns absent from the marker with
no store read and the cache unchanged. -/
theorem missing_key_negative_caching (pfx K L M : String) (env : Env)
    (hc : env.cacheUp = true) (hs : env.storeUp = true)
    (habs : store_find env.store K = none)
    (hmiss : cache_get env.cache (get_cache_key pfx K) = none) :
    (get_cached_snippet pfx env K L).outcome = Outcome.result none ∧
    (get_cached_snippet pfx env K L).dbReads = 1 ∧
    cache_get (get_cached_snippet pfx env K L).cache (get_cache_key pfx K) =
      some CacheVal.neg ∧
    (get_cached_snippet pfx
      (env.withCache (get_cached_snippet pfx env K L).cache) K M).outcome =
      Outcome.result none ∧
    (get_cached_snippet pfx
      (env.withCache (get_cached_snippet pfx env K L).cache) K M).dbReads
      = 0 ∧
    (get_cached_snippet pfx
      (env.withCache (get_cached_snippet pfx env K L).cache) K M).cache =
      (get_cached_snippet pfx env K L).cache := by
  have h1 := resolve_miss_absent pfx K L env hc hmiss hs habs
  have hcache : (get_cached_snippet pfx env K L).cache =
      cache_set env.cache (get_cache_key pfx K) CacheVal.neg :=
    congrArg ResolveOut.cache h1
  have h2 := resolve_neg_hit pfx K M
    (env.withCache (cache_set env.cache (get_cache_key pfx K) CacheVal.neg))
    hc (cache_get_set_self env.cache (get_cache_key pfx K) CacheVal.neg)
  refine ⟨congrArg ResolveOut.outcome h1, congrArg ResolveOut.dbReads h1,
    ?_, ?_, ?_, ?_⟩
  · rw [hcache]
    exact cache_get_set_self _ _ _
  · rw [hcache]
    exact congrArg ResolveOut.outcome h2
  · rw [hcache]
    exact congrArg ResolveOut.dbReads h2
  · rw [hcache]
    exact congrArg ResolveOut.cache h2

/-- Concrete environment with an empty store, empty cache, backends up. -/
def envEmpty : Env := Env.mk (Store.mk [] []) [] true true

/-- Witness for C2 at a concrete absent key. -/
theorem missing_key_negative_caching_witness :
    (get_cached_snippet "snippet:" envEmpty "ghost" "").outcome =
      Outcome.result none ∧
    (get_cached_snippet "snippet:" envEmpty "ghost" "").dbReads = 1 ∧
    cache_get (get_cached_snippet "snippet:" envEmpty "ghost" "").cache
      (get_cache_key "snippet:" "ghost") = some CacheVal.neg ∧
    (get_cached_snippet "snippet:"
      (envEmpty.withCache
        (get_cached_snippet "snippet:" envEmpty "ghost" "").cache)
      "ghost" "es").outcome = Outcome.result none ∧
    (get_cached_snippet "snippet:"
      (envEmpty.withCache
        (get_cached_snippet "snippet:" envEmpty "ghost" "").cache)
      "ghost" "es").dbReads = 0 ∧
    (get_cached_snippet "snippet:"
      (envEmpty.withCache
        (get_cached_snippet "snippet:" envEmpty "ghost" "").cache)
      "ghost" "es").cache =
      (get_cached_snippet "snippet:" envEmpty "ghost" "").cache :=
  missing_key_negative_caching "snippet:" "ghost" "" "es" envEmpty
    (by decide) (by decide) (by decide) (by decide)

theorem translation_save_found (pfx : String) (env : Env)
    (t : SnippetTranslation) (s : Snippet)
    (hf : store_find (store_save_translation env.store t) t.snippet_id =
      some s) :
    translation_save pfx env t =
      Env.mk (store_save_translation env.store t)
        (cache_set env.cache (get_cache_key pfx t.snippet_id)
          (CacheVal.view
            (Snippet.to_dict (store_save_translation env.store t) s)))
        env.storeUp env.cacheUp := by
  simp [translation_save, hf]

theorem translation_delete_found (pfx : String) (env : Env)
    (t : SnippetTranslation) (s : Snippet)
    (hf : store_find (store_delete_translation env.store t) t.snippet_id =
      some s) :
    translation_delete pfx env t =
      Env.mk (store_delete_translation env.store t)
        (cache_set env.cache (get_cache_key pfx t.snippet_id)
          (CacheVal.view
            (Snippet.to_dict (store_delete_translation env.store t) s)))
        env.storeUp env.cacheUp := by
  simp [translation_delete, hf]

/-- C3: after saving a Snippet, saving one of its translations, or deleting
one of its translations, the cache entry for the snippet key is
unconditionally overwritten with the dictionary rebuilt from the post-write
store, and the next get_cached_snippet for that key reads exactly that fresh
dictionary (no stale read). -/
theorem write_refreshes_cache (pfx L : String) (env : Env)
    (hc : env.cacheUp = true) :
    (∀ s : Snippet,
      cache_get (snippet_save pfx env s).cache (get_cache_key pfx s.key) =
        some (CacheVal.view
          (Snippet.to_dict (store_save_snippet env.store s) s)) ∧
      (get_cached_snippet pfx (snippet_save pfx env s) s.key L).outcome =
        Outcome.result
          (resolve_from
            (Snippet.to_dict (store_save_snippet env.store s) s) L)) ∧
    (∀ (t : SnippetTranslation) (s : Snippet),
      store_find (store_save_translation env.store t) t.snippet_id =
        some s →
      cache_get (translation_save pfx env t).cache
          (get_cache_key pfx t.snippet_id) =
        some (CacheVal.view
          (Snippet.to_dict (store_save_translation env.store t) s)) ∧
      (get_cached_snippet pfx (translation_save pfx env t)
          t.snippet_id L).outcome =
        Outcome.result
          (resolve_from
            (Snippet.to_dict (store_save_translation env.store t) s) L)) ∧
    (∀ (t : SnippetTranslation) (s : Snippet),
      store_find (store_delete_translation env.store t) t.snippet_id =
        some s →
      cache_get (translation_delete pfx env t).cache
          (get_cache_key pfx t.snippet_id) =
        some (CacheVal.view
          (Snippet.to_dict (store_delete_translation env.store t) s)) ∧
      (get_cached_snippet pfx (translation_delete pfx env t)
          t.snippet_id L).outcome =
        Outcome.result
          (resolve_from
            (Snippet.to_dict (store_delete_translation env.store t) s) L)) := by
  refine ⟨fun s => ?_, fun t s hf => ?_, fun t s hf => ?_⟩
  · have hget : cache_get (snippet_save pfx env s).cache
        (get_cache_key pfx s.key) =
        some (CacheVal.view
          (Snippet.to_dict (store_save_snippet env.store s) s)) :=
      cache_get_set_self env.cache _ _
    refine ⟨hget, ?_⟩
    have h := resolve_view_hit pfx s.key L (snippet_save pfx env s) hc _ hget
    exact congrArg ResolveOut.outcome h
  · rw [translation_save_found pfx env t s hf]
    have hget : cache_get
        (Env.mk (store_save_translation env.store t)
          (cache_set env.cache (get_cache_key pfx t.snippet_id)
            (CacheVal.view
              (Snippet.to_dict (store_save_translation env.store t) s)))
          env.storeUp env.cacheUp).cache
        (get_cache_key pfx t.snippet_id) =
        some (CacheVal.view
          (Snippet.to_dict (store_save_translation env.store t) s)) :=
      cache_get_set_self env.cache _ _
    refine ⟨hget, ?_⟩
    have h := resolve_view_hit pfx t.snippet_id L
      (Env.mk (store_save_translation env.store t)
        (cache_set env.cache (get_cache_key pfx t.snippet_id)
          (CacheVal.view
            (Snippet.to_dict (store_save_translation env.store t) s)))
        env.storeUp env.cacheUp)
      hc _ hget
    exact congrArg ResolveOut.outcome h
  · rw [translation_delete_found pfx env t s hf]
    have hget : cache_get
        (Env.mk (store_delete_translation env.store t)
          (cache_set env.cache (get_cache_key pfx t.snippet_id)
            (CacheVal.view
              (Snippet.to_dict (store_delete_translation env.store t) s)))
          env.storeUp env.cacheUp).cache
        (get_cache_key pfx t.snippet_id) =
        some (CacheVal.view
          (Snippet.to_dict (store_delete_translation env.store t) s)) :=
      cache_get_set_self env.cache _ _
    refine ⟨hget, ?_⟩
    have h := resolve_view_hit pfx t.snippet_id L
      (Env.mk (store_delete_translation env.store t)
        (cache_set env.cache (get_cache_key pfx t.snippet_id)
          (CacheVal.view
            (Snippet.to_dict (store_delete_translation env.store t) s)))
        env.storeUp env.cacheUp)
      hc _ hget
    exact congrArg ResolveOut.outcome h

/-- Witness for C3: updating the default text from Hello to Hi is read back
as Hi, saving a replacement Spanish translation is read back, and deleting
the Spanish translation makes the Spanish lookup fall back to Hello. -/
theorem write_refreshes_cache_witness :
    (get_cached_snippet "snippet:"
      (snippet_save "snippet:" envW (Snippet.mk "greeting" "Hi"))
      "greeting" "").outcome = Outcome.result (some "Hi") ∧
    (get_cached_snippet "snippet:"
      (translation_save "snippet:" envW
        (SnippetTranslation.mk "greeting" "es" "Buenas"))
      "greeting" "es").outcome = Outcome.result (some "Buenas") ∧
    (get_cached_snippet "snippet:"
      (translation_delete "snippet:" envW
        (SnippetTranslation.mk "greeting" "es" "Hola"))
      "greeting" "es").outcome = Outcome.result (some "Hello") := by
  refine ⟨?_, ?_, ?_⟩
  · have h := ((write_refreshes_cache "snippet:" "" envW (by decide)).1
      (Snippet.mk "greeting" "Hi")).2
    exact h.trans (by decide)
  · have h := ((write_refreshes_cache "snippet:" "es" envW (by decide)).2.1
      (SnippetTranslation.mk "greeting" "es" "Buenas")
      (Snippet.mk "greeting" "Hello") (by decide)).2
    exact h.trans (by decide)
  · have h := ((write_refreshes_cache "snippet:" "es" envW (by decide)).2.2
      (SnippetTranslation.mk "greeting" "es" "Hola")
      (Snippet.mk "greeting" "Hello") (by decide)).2
    exact h.trans (by decide)

/-- C4: the negative marker is only ever written after a store lookup has
confirmed the key absent; a store failure during a miss-fill propagates as
the store error and leaves the cache exactly as it was. -/
theorem negative_marker_confirmed_miss_only (pfx K L : String) (env : Env)
    (hc : env.cacheUp = true) :
    (cache_get env.cache (get_cache_key pfx K) = none →
      env.storeUp = false →
      (get_cached_snippet pfx env K L).outcome = Outcome.dbError ∧
      (get_cached_snippet pfx env K L).cache = env.cache) ∧
    (cache_get env.cache (get_cache_key pfx K) ≠ some CacheVal.neg →
      cache_get (get_cached_snippet pfx env K L).cache
        (get_cache_key pfx K) = some CacheVal.neg →
      env.storeUp = true ∧ store_find env.store K = none) := by
  constructor
  · intro hm hsd
    have h := resolve_miss_store_down pfx K L env hc hm hsd
    exact ⟨congrArg ResolveOut.outcome h, congrArg ResolveOut.cache h⟩
  · intro hold hnew
    cases hv : cache_get env.cache (get_cache_key pfx K) with
    | some v =>
      cases v with
      | neg => exact absurd hv hold
      | view d =>
        have h := resolve_view_hit pfx K L env hc d hv
        have hcc : (get_cached_snippet pfx env K L).cache = env.cache :=
          congrArg ResolveOut.cache h
        rw [hcc, hv] at hnew
        exact absurd hnew (by simp)
    | none =>
      cases hst : env.storeUp with
      | false =>
        have h := resolve_miss_store_down pfx K L env hc hv hst
        have hcc : (get_cached_snippet pfx env K L).cache = env.cache :=
          congrArg ResolveOut.cache h
        rw [hcc, hv] at hnew
        exact absurd hnew (by simp)
      | true =>
        cases hf : store_find env.store K with
        | none => exact ⟨rfl, rfl⟩
        | some s =>
          have h := resolve_miss_found pfx K L env hc hv hst s hf
          have hcc : (get_cached_snippet pfx env K L).cache =
              cache_set env.cache (get_cache_key pfx s.key)
                (CacheVal.view (Snippet.to_dict env.store s)) :=
            congrArg ResolveOut.cache h
          have hk : s.key = K := store_find_key env.store K s hf
          rw [hcc, hk, cache_get_set_self] at hnew
          exact absurd hnew (by simp)

/-- Concrete environment with an empty store, empty cache, the durable store
down and the cache backend up. -/
def envDown : Env := Env.mk (Store.mk [] []) [] false true

/-- Witness for C4: with the store down a miss-fill surfaces the store error
and writes nothing, and at a genuinely absent key the marker written by the
call is justified by a confirmed miss. -/
theorem negative_marker_confirmed_miss_only_witness :
    ((get_cached_snippet "snippet:" envDown "ghost" "").outcome =
        Outcome.dbError ∧
      (get_cached_snippet "snippet:" envDown "ghost" "").cache =
        envDown.cache) ∧
    (envEmpty.storeUp = true ∧ store_find envEmpty.store "ghost" = none) := by
  constructor
  · exact (negative_marker_confirmed_miss_only "snippet:" "ghost" "" envDown
      (by decide)).1 (by decide) (by decide)
  · exact (negative_marker_confirmed_miss_only "snippet:" "ghost" ""
      envEmpty (by decide)).2 (by decide) (by decide)

/-- C5: deleting a Snippet removes the cache entry entirely (the lookup on
the new cache is a backend miss, in particular not the negative marker), so
the next get_cached_snippet for that key issues a fresh store query. -/
theorem delete_evicts_cache (pfx K L : String) (env : Env)
    (hc : env.cacheUp = true) :
    cache_get (snippet_delete pfx env K).cache (get_cache_key pfx K) =
      none ∧
    (get_cached_snippet pfx (snippet_delete pfx env K) K L).dbReads = 1 := by
  have hnone : cache_get (snippet_delete pfx env K).cache
      (get_cache_key pfx K) = none := cache_get_delete_self env.cache _
  refine ⟨hnone, ?_⟩
  cases hst : env.storeUp with
  | false =>
    have h := resolve_miss_store_down pfx K L (snippet_delete pfx env K)
      hc hnone hst
    exact congrArg ResolveOut.dbReads h
  | true =>
    cases hf : store_find (snippet_delete pfx env K).store K with
    | none =>
      have h := resolve_miss_absent pfx K L (snippet_delete pfx env K)
        hc hnone hst hf
      exact congrArg ResolveOut.dbReads h
    | some s =>
      have h := resolve_miss_found pfx K L (snippet_delete pfx env K)
        hc hnone hst s hf
      exact congrArg ResolveOut.dbReads h

/-- Witness for C5 at the concrete populated environment. -/
theorem delete_evicts_cache_witness :
    cache_get (snippet_delete "snippet:" envW "greeting").cache
      (get_cache_key "snippet:" "greeting") = none ∧
    (get_cached_snippet "snippet:" (snippet_delete "snippet:" envW "greeting")
      "greeting" "es").dbReads = 1 :=
  delete_evicts_cache "snippet:" "greeting" "es" envW (by decide)

/-- C6: the dictionary built from a Snippet maps the empty string to the
snippet default text, with the default taking precedence over any
translation stored under the empty-string language, and maps every other
language that has a translation of this snippet to that translation text
(the uniqueness hypothesis mirrors the unique_together constraint on the
pair of snippet and language). -/
theorem to_dict_builds_view (store : Store) (s : Snippet) :
    dict_get (Snippet.to_dict store s) "" = some s.text ∧
    (∀ L T : String, L ≠ "" →
      (∃ t ∈ store.translations, t.snippet_id = s.key ∧ t.language = L) →
      (∀ t ∈ store.translations,
        t.snippet_id = s.key → t.language = L → t.text = T) →
      dict_get (Snippet.to_dict store s) L = some T) := by
  refine ⟨to_dict_default_entry store s, ?_⟩
  intro L T hL hex hall
  have hne : dict_get (Snippet.to_dict store s) L =
      dict_get ((store.translations.filter
        (fun t => t.snippet_id == s.key)).foldl
          (fun acc t => dict_insert acc t.language t.text) []) L := by
    simp only [Snippet.to_dict]
    exact dict_get_insert_other _ "" s.text L hL
  rw [hne]
  apply dict_get_foldl_all_eq
  · intro t ht hLt
    have hm := List.mem_filter.mp ht
    exact hall t hm.1 (by simpa using hm.2) hLt
  · rcases hex with ⟨t, ht, hid, hLt⟩
    exact ⟨t, List.mem_filter.mpr ⟨ht, by simp [hid]⟩, hLt⟩

/-- Concrete store exercising the tie-break: one translation is stored under
the empty-string language and must lose to the default text. -/
def storeTie : Store :=
  Store.mk [Snippet.mk "k" "DEF"]
    [SnippetTranslation.mk "k" "" "evil", SnippetTranslation.mk "k" "es" "Hola"]

/-- Witness for C6: the default wins at the empty string even against an
empty-string translation, and the Spanish translation is mapped. -/
theorem to_dict_builds_view_witness :
    dict_get (Snippet.to_dict storeTie (Snippet.mk "k" "DEF")) "" =
      some "DEF" ∧
    dict_get (Snippet.to_dict storeTie (Snippet.mk "k" "DEF")) "es" =
      some "Hola" := by
  constructor
  · exact (to_dict_builds_view storeTie (Snippet.mk "k" "DEF")).1
  · exact (to_dict_builds_view storeTie (Snippet.mk "k" "DEF")).2 "es" "Hola"
      (by decide)
      ⟨SnippetTranslation.mk "k" "es" "Hola", by decide, by decide, by decide⟩
      (by decide)

/-- C7: two consecutive calls with the same key and language and no
intervening write or delete return the same outcome and perform at most one
durable-store read in total, the first call having populated the cache with
either the dictionary view or the negative marker. -/
theorem resolve_idempotent (pfx K L : String) (env : Env)
    (hc : env.cacheUp = true) (hs : env.storeUp = true) :
    (get_cached_snippet pfx
        (env.withCache (get_cached_snippet pfx env K L).cache) K L).outcome =
      (get_cached_snippet pfx env K L).outcome ∧
    (get_cached_snippet pfx env K L).dbReads +
      (get_cached_snippet pfx
        (env.withCache (get_cached_snippet pfx env K L).cache) K L).dbReads
      ≤ 1 := by
  cases hv : cache_get env.cache (get_cache_key pfx K) with
  | some v =>
    cases v with
    | neg =>
      have h1 := resolve_neg_hit pfx K L env hc hv
      have hcache : (get_cached_snippet pfx env K L).cache = env.cache :=
        congrArg ResolveOut.cache h1
      rw [hcache]
      have h2 := resolve_neg_hit pfx K L (env.withCache env.cache) hc hv
      rw [h1, h2]
      exact ⟨rfl, Nat.zero_le 1⟩
    | view d =>
      have h1 := resolve_view_hit pfx K L env hc d hv
      have hcache : (get_cached_snippet pfx env K L).cache = env.cache :=
        congrArg ResolveOut.cache h1
      rw [hcache]
      have h2 := resolve_view_hit pfx K L (env.withCache env.cache) hc d hv
      rw [h1, h2]
      exact ⟨rfl, Nat.zero_le 1⟩
  | none =>
    cases hf : store_find env.store K with
    | none =>
      have h1 := resolve_miss_absent pfx K L env hc hv hs hf
      have hcache : (get_cached_snippet pfx env K L).cache =
          cache_set env.cache (get_cache_key pfx K) CacheVal.neg :=
        congrArg ResolveOut.cache h1
      rw [hcache]
      have h2 := resolve_neg_hit pfx K L
        (env.withCache
          (cache_set env.cache (get_cache_key pfx K) CacheVal.neg))
        hc (cache_get_set_self env.cache (get_cache_key pfx K) CacheVal.neg)
      rw [h1, h2]
      exact ⟨rfl, Nat.le_refl 1⟩
    | some s =>
      have hk : s.key = K := store_find_key env.store K s hf
      subst hk
      have h1 := resolve_miss_found pfx s.key L env hc hv hs s hf
      have hcache : (get_cached_snippet pfx env s.key L).cache =
          cache_set env.cache (get_cache_key pfx s.key)
            (CacheVal.view (Snippet.to_dict env.store s)) :=
        congrArg ResolveOut.cache h1
      rw [hcache]
      have h2 := resolve_view_hit pfx s.key L
        (env.withCache
          (cache_set env.cache (get_cache_key pfx s.key)
            (CacheVal.view (Snippet.to_dict env.store s))))
        hc (Snippet.to_dict env.store s)
        (cache_get_set_self env.cache (get_cache_key pfx s.key)
          (CacheVal.view (Snippet.to_dict env.store s)))
      rw [h1, h2]
      exact ⟨rfl, Nat.le_refl 1⟩

/-- Witness for C7 at a concrete present key: the two calls agree and the
store is read once in total. -/
theorem resolve_idempotent_witness :
    (get_cached_snippet "snippet:"
        (envW.withCache
          (get_cached_snippet "snippet:" envW "greeting" "es").cache)
        "greeting" "es").outcome =
      (get_cached_snippet "snippet:" envW "greeting" "es").outcome ∧
    (get_cached_snippet "snippet:" envW "greeting" "es").dbReads +
      (get_cached_snippet "snippet:"
        (envW.withCache
          (get_cached_snippet "snippet:" envW "greeting" "es").cache)
        "greeting" "es").dbReads ≤ 1 :=
  resolve_idempotent "snippet:" "greeting" "es" envW (by decide) (by decide)

/-- C8 counterexample: with the cache backend raising on every call and the
snippet present in the durable store, get_cached_snippet surfaces the cache
error instead of returning the store-sourced default text Hello, contrary to
the claim that a cache failure degrades to direct store access and is never
surfaced. -/
def envC8 : Env :=
  Env.mk (Store.mk [Snippet.mk "greeting" "Hello"] []) [] true false

/-- Counterexample theorem for C8: the outcome at the concrete input is the
cache error, not the store-sourced text. -/
theorem cache_failure_not_absorbed :
    (get_cached_snippet "snippet:" envC8 "greeting" "").outcome =
      Outcome.cacheError ∧
    ¬ ((get_cached_snippet "snippet:" envC8 "greeting" "").outcome =
      Outcome.result (some "Hello")) := by
  decide

/-- C8 (amended): when the cache backend fails, get_cached_snippet surfaces
the cache error to the caller, performs no durable-store read and leaves the
cache unchanged; the source wraps no cache call in a handler, so nothing
degrades to direct store access. -/
theorem cache_failure_propagates (pfx K L : String) (env : Env)
    (hdown : env.cacheUp = false) :
    (get_cached_snippet pfx env K L).outcome = Outcome.cacheError ∧
    (get_cached_snippet pfx env K L).cache = env.cache ∧
    (get_cached_snippet pfx env K L).dbReads = 0 := by
  have h := resolve_cache_down pfx K L env hdown
  exact ⟨congrArg ResolveOut.outcome h, congrArg ResolveOut.cache h,
    congrArg ResolveOut.dbReads h⟩

/-- Witness for the amended C8 at the concrete failing-cache environment. -/
theorem cache_failure_propagates_witness :
    (get_cached_snippet "snippet:" envC8 "greeting" "es").outcome =
      Outcome.cacheError ∧
    (get_cached_snippet "snippet:" envC8 "greeting" "es").cache =
      envC8.cache ∧
    (get_cached_snippet "snippet:" envC8 "greeting" "es").dbReads = 0 :=
  cache_failure_propagates "snippet:" "greeting" "es" envC8 (by decide)

theorem get_cache_key_inj (pfx k1 k2 : String)
    (h : get_cache_key pfx k1 = get_cache_key pfx k2) : k1 = k2 := by
  have hd := congrArg String.data h
  simp only [get_cache_key, String.data_append,
    List.append_cancel_left_eq] at hd
  exact String.ext hd

/-- C9: the cache key is computed purely by joining the configured namespace
(default snippet:) with the snippet key, and for a fixed namespace the
mapping from snippet keys to cache keys is injective. -/
theorem cache_key_injective :
    cache_pfx_default = "snippet:" ∧
    ∀ pfx k1 k2 : String,
      get_cache_key pfx k1 = get_cache_key pfx k2 → k1 = k2 :=
  ⟨rfl, get_cache_key_inj⟩

/-- Witness for C9, discharging the equation hypothesis at a concrete key
under the default namespace. -/
theorem cache_key_injective_witness :
    get_cache_key cache_pfx_default "greeting" =
      get_cache_key "snippet:" "greeting" ∧
    ("greeting" : String) = "greeting" :=
  ⟨rfl, cache_key_injective.2 "snippet:" "greeting" "greeting" rfl⟩

/-! Coherence of the cache with the store: the empty cache is coherent, and
every operation of the layer preserves coherence, so every reachable state
satisfies cache_coherent. -/

theorem store_find_after_save_snippet (store : Store) (s : Snippet)
    (K : String) (h : K ≠ s.key) :
    store_find (store_save_snippet store s) K = store_find store K := by
  have hkey : (s.key == K) = false := beq_false_of_ne (fun he => h he.symm)
  simp only [store_find, store_save_snippet, List.find?_append,
    find?_filter_key (fun u => u.key) store.snippets s.key K h]
  simp [List.find?_cons, hkey]

theorem store_find_after_delete_snippet (store : Store) (K K' : String)
    (h : K' ≠ K) :
    store_find (store_delete_snippet store K) K' = store_find store K' := by
  simp only [store_find, store_delete_snippet]
  exact find?_filter_key (fun u => u.key) store.snippets K K' h

theorem cache_coherent_empty (pfx : String) (st : Store) (b1 b2 : Bool) :
    cache_coherent pfx (Env.mk st [] b1 b2) := by
  intro K s hf
  constructor
  · intro h
    simp [cache_get] at h
  · intro d h
    simp [cache_get] at h

/-- Overwriting one cache entry with a freshly built dictionary view keeps
the cache coherent, provided presence of any other key in the new store
implies its presence in the old store. -/
theorem cache_coherent_set_view (pfx : String) (env : Env) (stNew : Store)
    (kSet : String) (sNew : Snippet) (b1 b2 : Bool)
    (hpres : ∀ K, K ≠ kSet → (store_find stNew K).isSome = true →
      (store_find env.store K).isSome = true)
    (hcoh : cache_coherent pfx env) :
    cache_coherent pfx
      (Env.mk stNew
        (cache_set env.cache (get_cache_key pfx kSet)
          (CacheVal.view (Snippet.to_dict stNew sNew)))
        b1 b2) := by
  intro K' s' hf'
  have hf2 : store_find stNew K' = some s' := hf'
  show cache_get (cache_set env.cache (get_cache_key pfx kSet)
      (CacheVal.view (Snippet.to_dict stNew sNew))) (get_cache_key pfx K') ≠
        some CacheVal.neg ∧
    ∀ d, cache_get (cache_set env.cache (get_cache_key pfx kSet)
      (CacheVal.view (Snippet.to_dict stNew sNew))) (get_cache_key pfx K') =
        some (CacheVal.view d) → (dict_get d "").isSome = true
  by_cases hkk : get_cache_key pfx K' = get_cache_key pfx kSet
  · rw [hkk, cache_get_set_self]
    constructor
    · simp
    · intro d hd
      injection hd with h1
      injection h1 with h2
      rw [← h2, to_dict_default_entry]
      rfl
  · rw [cache_get_set_other env.cache (get_cache_key pfx kSet)
      (get_cache_key pfx K') (CacheVal.view (Snippet.to_dict stNew sNew))
      hkk]
    have hK : K' ≠ kSet := fun he => hkk (by rw [he])
    have hpre : (store_find env.store K').isSome = true :=
      hpres K' hK (by rw [hf2]; rfl)
    obtain ⟨u, hu⟩ := Option.isSome_iff_exists.mp hpre
    exact hcoh K' u hu

theorem cache_coherent_after_resolve (pfx K L : String) (env : Env)
    (hcoh : cache_coherent pfx env) :
    cache_coherent pfx
      (env.withCache (get_cached_snippet pfx env K L).cache) := by
  intro K' s' hf'
  have hfind : store_find env.store K' = some s' := hf'
  have hbase := hcoh K' s' hfind
  show cache_get (get_cached_snippet pfx env K L).cache
      (get_cache_key pfx K') ≠ some CacheVal.neg ∧
    ∀ d, cache_get (get_cached_snippet pfx env K L).cache
      (get_cache_key pfx K') = some (CacheVal.view d) →
      (dict_get d "").isSome = true
  cases hcu : env.cacheUp with
  | false =>
    have hcache : (get_cached_snippet pfx env K L).cache = env.cache :=
      congrArg ResolveOut.cache (resolve_cache_down pfx K L env hcu)
    rw [hcache]
    exact hbase
  | true =>
    cases hv : cache_get env.cache (get_cache_key pfx K) with
    | some v =>
      cases v with
      | neg =>
        have hcache : (get_cached_snippet pfx env K L).cache = env.cache :=
          congrArg ResolveOut.cache (resolve_neg_hit pfx K L env hcu hv)
        rw [hcache]
        exact hbase
      | view d =>
        have hcache : (get_cached_snippet pfx env K L).cache = env.cache :=
          congrArg ResolveOut.cache (resolve_view_hit pfx K L env hcu d hv)
        rw [hcache]
        exact hbase
    | none =>
      cases hst : env.storeUp with
      | false =>
        have hcache : (get_cached_snippet pfx env K L).cache = env.cache :=
          congrArg ResolveOut.cache
            (resolve_miss_store_down pfx K L env hcu hv hst)
        rw [hcache]
        exact hbase
      | true =>
        cases hfK : store_find env.store K with
        | none =>
          have hcache : (get_cached_snippet pfx env K L).cache =
              cache_set env.cache (get_cache_key pfx K) CacheVal.neg :=
            congrArg ResolveOut.cache
              (resolve_miss_absent pfx K L env hcu hv hst hfK)
          rw [hcache]
          by_cases hkk : get_cache_key pfx K' = get_cache_key pfx K
          · have hKK : K' = K := get_cache_key_inj pfx K' K hkk
            rw [hKK, hfK] at hfind
            exact Option.noConfusion hfind
          · rw [cache_get_set_other env.cache (get_cache_key pfx K)
              (get_cache_key pfx K') CacheVal.neg hkk]
            exact hbase
        | some s =>
          have hcache : (get_cached_snippet pfx env K L).cache =
              cache_set env.cache (get_cache_key pfx s.key)
                (CacheVal.view (Snippet.to_dict env.store s)) :=
            congrArg ResolveOut.cache
              (resolve_miss_found pfx K L env hcu hv hst s hfK)
          rw [hcache]
          by_cases hkk : get_cache_key pfx K' = get_cache_key pfx s.key
          · rw [hkk, cache_get_set_self]
            constructor
            · simp
            · intro d hd
              injection hd with h1
              injection h1 with h2
              rw [← h2, to_dict_default_entry]
              rfl
          · rw [cache_get_set_other env.cache (get_cache_key pfx s.key)
              (get_cache_key pfx K')
              (CacheVal.view (Snippet.to_dict env.store s)) hkk]
            exact hbase

theorem cache_coherent_after_snippet_save (pfx : String) (env : Env)
    (s : Snippet) (hcoh : cache_coherent pfx env) :
    cache_coherent pfx (snippet_save pfx env s) := by
  have h := cache_coherent_set_view pfx env (store_save_snippet env.store s)
    s.key s env.storeUp env.cacheUp ?_ hcoh
  · exact h
  · intro K hK hpre
    rw [store_find_after_save_snippet env.store s K hK] at hpre
    exact hpre

theorem translation_save_not_found (pfx : String) (env : Env)
    (t : SnippetTranslation)
    (hf : store_find (store_save_translation env.store t) t.snippet_id =
      none) :
    translation_save pfx env t =
      Env.mk (store_save_translation env.store t) env.cache
        env.storeUp env.cacheUp := by
  simp [translation_save, hf]

theorem translation_delete_not_found (pfx : String) (env : Env)
    (t : SnippetTranslation)
    (hf : store_find (store_delete_translation env.store t) t.snippet_id =
      none) :
    translation_delete pfx env t =
      Env.mk (store_delete_translation env.store t) env.cache
        env.storeUp env.cacheUp := by
  simp [translation_delete, hf]

theorem cache_coherent_after_translation_save (pfx : String) (env : Env)
    (t : SnippetTranslation) (hcoh : cache_coherent pfx env) :
    cache_coherent pfx (translation_save pfx env t) := by
  cases hf : store_find (store_save_translation env.store t) t.snippet_id with
  | none =>
    rw [translation_save_not_found pfx env t hf]
    intro K' s' hf'
    exact hcoh K' s' hf'
  | some s =>
    rw [translation_save_found pfx env t s hf]
    exact cache_coherent_set_view pfx env (store_save_translation env.store t)
      t.snippet_id s env.storeUp env.cacheUp (fun K hK hpre => hpre) hcoh

theorem cache_coherent_after_translation_delete (pfx : String) (env : Env)
    (t : SnippetTranslation) (hcoh : cache_coherent pfx env) :
    cache_coherent pfx (translation_delete pfx env t) := by
  cases hf : store_find (store_delete_translation env.store t)
      t.snippet_id with
  | none =>
    rw [translation_delete_not_found pfx env t hf]
    intro K' s' hf'
    exact hcoh K' s' hf'
  | some s =>
    rw [translation_delete_found pfx env t s hf]
    exact cache_coherent_set_view pfx env
      (store_delete_translation env.store t)
      t.snippet_id s env.storeUp env.cacheUp (fun K hK hpre => hpre) hcoh

theorem cache_coherent_after_snippet_delete (pfx : String) (env : Env)
    (K : String) (hcoh : cache_coherent pfx env) :
    cache_coherent pfx (snippet_delete pfx env K) := by
  intro K' s' hf'
  have hf2 : store_find (store_delete_snippet env.store K) K' = some s' :=
    hf'
  show cache_get (cache_delete env.cache (get_cache_key pfx K))
      (get_cache_key pfx K') ≠ some CacheVal.neg ∧
    ∀ d, cache_get (cache_delete env.cache (get_cache_key pfx K))
      (get_cache_key pfx K') = some (CacheVal.view d) →
      (dict_get d "").isSome = true
  by_cases hkk : get_cache_key pfx K' = get_cache_key pfx K
  · rw [hkk, cache_get_delete_self]
    constructor
    · simp
    · intro d hd
      exact Option.noConfusion hd
  · rw [cache_get_delete_other env.cache (get_cache_key pfx K)
      (get_cache_key pfx K') hkk]
    have hK : K' ≠ K := fun he => hkk (by rw [he])
    have hfind : store_find env.store K' = some s' := by
      rw [← store_find_after_delete_snippet env.store K K' hK]
      exact hf2
    exact hcoh K' s' hfind

/-- C10: every dictionary built from a Snippet contains the empty-string
entry; the empty cache is coherent and every operation of the layer keeps
the cache coherent; consequently, in any coherent state, a key whose
snippet exists in the durable store resolves to some text for every
language, never to absent. -/
theorem present_key_always_text (pfx : String) :
    (∀ (st : Store) (u : Snippet),
      (dict_get (Snippet.to_dict st u) "").isSome = true) ∧
    (∀ (st : Store) (b1 b2 : Bool),
      cache_coherent pfx (Env.mk st [] b1 b2)) ∧
    (∀ (K L : String) (env : Env), cache_coherent pfx env →
      cache_coherent pfx
        (env.withCache (get_cached_snippet pfx env K L).cache)) ∧
    (∀ (env : Env) (s : Snippet), cache_coherent pfx env →
      cache_coherent pfx (snippet_save pfx env s)) ∧
    (∀ (env : Env) (t : SnippetTranslation), cache_coherent pfx env →
      cache_coherent pfx (translation_save pfx env t)) ∧
    (∀ (env : Env) (K : String), cache_coherent pfx env →
      cache_coherent pfx (snippet_delete pfx env K)) ∧
    (∀ (env : Env) (t : SnippetTranslation), cache_coherent pfx env →
      cache_coherent pfx (translation_delete pfx env t)) ∧
    (∀ (K L : String) (env : Env) (s : Snippet), env.cacheUp = true →
      env.storeUp = true → cache_coherent pfx env →
      store_find env.store K = some s →
      ∃ t, (get_cached_snippet pfx env K L).outcome =
        Outcome.result (some t)) := by
  refine ⟨?_, cache_coherent_empty pfx,
    fun K L env h => cache_coherent_after_resolve pfx K L env h,
    fun env s h => cache_coherent_after_snippet_save pfx env s h,
    fun env t h => cache_coherent_after_translation_save pfx env t h,
    fun env K h => cache_coherent_after_snippet_delete pfx env K h,
    fun env t h => cache_coherent_after_translation_delete pfx env t h, ?_⟩
  · intro st u
    rw [to_dict_default_entry]
    rfl
  · intro K L env s hc hs hcoh hfind
    cases hv : cache_get env.cache (get_cache_key pfx K) with
    | some v =>
      cases v with
      | neg => exact absurd hv (hcoh K s hfind).1
      | view d =>
        have hsome := (hcoh K s hfind).2 d hv
        obtain ⟨t, ht⟩ := resolve_from_isSome d L hsome
        have hout : (get_cached_snippet pfx env K L).outcome =
            Outcome.result (resolve_from d L) :=
          congrArg ResolveOut.outcome (resolve_view_hit pfx K L env hc d hv)
        exact ⟨t, by rw [hout, ht]⟩
    | none =>
      have hout : (get_cached_snippet pfx env K L).outcome =
          Outcome.result (resolve_from (Snippet.to_dict env.store s) L) :=
        congrArg ResolveOut.outcome
          (resolve_miss_found pfx K L env hc hv hs s hfind)
      have hsome : (dict_get (Snippet.to_dict env.store s) "").isSome =
          true := by
        rw [to_dict_default_entry]
        rfl
      obtain ⟨t, ht⟩ := resolve_from_isSome (Snippet.to_dict env.store s) L
        hsome
      exact ⟨t, by rw [hout, ht]⟩

/-- Witness for C10: in the concrete populated coherent environment, a
language with no translation still resolves to some text. -/
theorem present_key_always_text_witness :
    ∃ t, (get_cached_snippet "snippet:" envW "greeting" "de").outcome =
      Outcome.result (some t) :=
  (present_key_always_text "snippet:").2.2.2.2.2.2.2 "greeting" "de" envW
    (Snippet.mk "greeting" "Hello") (by decide) (by decide)
    ((present_key_always_text "snippet:").2.1 envW.store true true)
    (by decide)

end Addendum
